import Mathlib

/-!
Verification development for the balance-checker demo frontend.

The JavaScript sources under `src/icp_frontend/src` are shallowly embedded:
byte strings become `List Nat` (each entry a byte value `< 256`), JavaScript
`BigInt`/`Nat64` values become `Nat` with explicit `% 2^64` where `DataView`
truncation matters, and fallible operations return `Option`/`Except`.
External cryptographic libraries (js-sha256, @noble/secp256k1,
@dfinity/identity-secp256k1) are modelled as fields of a `CryptoPrims`
record of pure functions, matching their documented deterministic
behaviour (RFC 6979 signing, plain hashing).
-/

namespace BalanceChecker

/-- Byte strings are lists of byte values. -/
abbrev Bytes := List Nat

/-- The two settlement chains (`CHAIN_IDS` table keys in `App.jsx`). -/
inductive Chain
  | ethereum
  | solana
deriving DecidableEq, Repr

/-- The two stablecoin symbols (`ASSET_IDS` table keys in `App.jsx`). -/
inductive AssetSymbol
  | USDC
  | EURC
deriving DecidableEq, Repr

/-- Tag table `CHAIN_IDS = { ethereum: 1, solana: 2 }` from `App.jsx`. -/
def CHAIN_IDS : Chain → Nat
  | .ethereum => 1
  | .solana => 2

/-- Tag table `ASSET_IDS = { USDC: 1, EURC: 2 }` from `App.jsx`. -/
def ASSET_IDS : AssetSymbol → Nat
  | .USDC => 1
  | .EURC => 2

/-- UTF-8 encoding of a single code point, as produced by `TextEncoder`
(WHATWG encoding standard); Lean `Char`s never hold surrogates. -/
def utf8EncodeCharNat (c : Nat) : List Nat :=
  if c < 0x80 then [c]
  else if c < 0x800 then [0xC0 + c / 64, 0x80 + c % 64]
  else if c < 0x10000 then [0xE0 + c / 4096, 0x80 + c / 64 % 64, 0x80 + c % 64]
  else [0xF0 + c / 262144, 0x80 + c / 4096 % 64, 0x80 + c / 64 % 64, 0x80 + c % 64]

/-- `TextEncoder().encode(s)`: the raw UTF-8 bytes of a string. -/
def utf8Bytes (s : String) : Bytes :=
  s.data.foldr (fun c acc => utf8EncodeCharNat c.toNat ++ acc) []

/-- `new DataView(buf).setBigUint64(0, n, false)` writes the value modulo
`2^64` in big-endian byte order; byte `i` is bits `56 - 8*i` and down. -/
def setBigUint64BE (n : Nat) : Bytes :=
  (List.range 8).map (fun i => n % 2 ^ 64 / 2 ^ (8 * (7 - i)) % 256)

/-- `serializeIntentForSigning` from `App.jsx` / `utils/intent.js`:
principal bytes, four 1-byte tags, three 8-byte big-endian u64 fields,
then the raw UTF-8 bytes of the destination address. -/
def serializeIntentForSigning (principal : Bytes) (sourceChain : Chain)
    (sourceSymbol : AssetSymbol) (destChain : Chain) (destSymbol : AssetSymbol)
    (amount minOutput sequenceNumber : Nat) (destAddress : String) : Bytes :=
  principal
    ++ [CHAIN_IDS sourceChain, ASSET_IDS sourceSymbol,
        CHAIN_IDS destChain, ASSET_IDS destSymbol]
    ++ setBigUint64BE amount
    ++ setBigUint64BE minOutput
    ++ setBigUint64BE sequenceNumber
    ++ utf8Bytes destAddress

/-- Big-endian base-256 digits of `n`, `k` bytes, most significant first.
Written from the specification text: the k-byte big-endian encoding. -/
def beBytes : Nat → Nat → Bytes
  | 0, _ => []
  | k + 1, n => beBytes k (n / 256) ++ [n % 256]

/-- Canonical intent layout written from the specification words (§4.2):
account identifier raw bytes; 1-byte source-chain tag; 1-byte source-asset
tag; 1-byte dest-chain tag; 1-byte dest-asset tag; 8-byte big-endian
amount; 8-byte big-endian minimum output; 8-byte big-endian sequence
number; raw UTF-8 bytes of the destination address. -/
def canonicalIntentBytes_spec (account : Bytes)
    (sourceChainTag sourceAssetTag destChainTag destAssetTag : Nat)
    (amount minOutput sequenceNumber : Nat) (destAddress : String) : Bytes :=
  account ++ [sourceChainTag] ++ [sourceAssetTag] ++ [destChainTag]
    ++ [destAssetTag] ++ beBytes 8 amount ++ beBytes 8 minOutput
    ++ beBytes 8 sequenceNumber ++ utf8Bytes destAddress

/-- Classifies a UTF-8 leading byte by the length of its encoded block. -/
def utf8ByteClass (b : Nat) : Nat :=
  if b < 0x80 then 1
  else if b < 0xC0 then 0
  else if b < 0xE0 then 2
  else if b < 0xF0 then 3
  else 4

/-- Recovers the code point from a single UTF-8 encoded block. -/
def utf8Val : List Nat → Nat
  | [a] => a
  | [a, b] => (a - 0xC0) * 64 + (b - 0x80)
  | [a, b, c] => (a - 0xE0) * 4096 + (b - 0x80) * 64 + (c - 0x80)
  | [a, b, c, d] =>
      (a - 0xF0) * 262144 + (b - 0x80) * 4096 + (c - 0x80) * 64 + (d - 0x80)
  | _ => 0

/-- Recombines big-endian base-256 digits into the encoded value. -/
def beVal (l : Bytes) : Nat :=
  l.foldl (fun a b => a * 256 + b) 0

/-- The fields covered by the canonical encoding, bundled. -/
structure IntentFields where
  principal : Bytes
  sourceChain : Chain
  sourceSymbol : AssetSymbol
  destChain : Chain
  destSymbol : AssetSymbol
  amount : Nat
  minOutput : Nat
  sequenceNumber : Nat
  destAddress : String
deriving DecidableEq

/-- `serializeIntentForSigning` applied to a bundle of fields. -/
def encodeFields (f : IntentFields) : Bytes :=
  serializeIntentForSigning f.principal f.sourceChain f.sourceSymbol
    f.destChain f.destSymbol f.amount f.minOutput f.sequenceNumber f.destAddress

/-- The three numeric fields are u64 values, as in the candid interface. -/
def U64Fields (f : IntentFields) : Prop :=
  f.amount < 2 ^ 64 ∧ f.minOutput < 2 ^ 64 ∧ f.sequenceNumber < 2 ^ 64

/-- Two field bundles agree everywhere except in exactly one covered field. -/
def DiffersInExactlyOneField (f g : IntentFields) : Prop :=
  (f.principal ≠ g.principal ∧ f.sourceChain = g.sourceChain ∧
    f.sourceSymbol = g.sourceSymbol ∧ f.destChain = g.destChain ∧
    f.destSymbol = g.destSymbol ∧ f.amount = g.amount ∧
    f.minOutput = g.minOutput ∧ f.sequenceNumber = g.sequenceNumber ∧
    f.destAddress = g.destAddress) ∨
  (f.principal = g.principal ∧ f.sourceChain ≠ g.sourceChain ∧
    f.sourceSymbol = g.sourceSymbol ∧ f.destChain = g.destChain ∧
    f.destSymbol = g.destSymbol ∧ f.amount = g.amount ∧
    f.minOutput = g.minOutput ∧ f.sequenceNumber = g.sequenceNumber ∧
    f.destAddress = g.destAddress) ∨
  (f.principal = g.principal ∧ f.sourceChain = g.sourceChain ∧
    f.sourceSymbol ≠ g.sourceSymbol ∧ f.destChain = g.destChain ∧
    f.destSymbol = g.destSymbol ∧ f.amount = g.amount ∧
    f.minOutput = g.minOutput ∧ f.sequenceNumber = g.sequenceNumber ∧
    f.destAddress = g.destAddress) ∨
  (f.principal = g.principal ∧ f.sourceChain = g.sourceChain ∧
    f.sourceSymbol = g.sourceSymbol ∧ f.destChain ≠ g.destChain ∧
    f.destSymbol = g.destSymbol ∧ f.amount = g.amount ∧
    f.minOutput = g.minOutput ∧ f.sequenceNumber = g.sequenceNumber ∧
    f.destAddress = g.destAddress) ∨
  (f.principal = g.principal ∧ f.sourceChain = g.sourceChain ∧
    f.sourceSymbol = g.sourceSymbol ∧ f.destChain = g.destChain ∧
    f.destSymbol ≠ g.destSymbol ∧ f.amount = g.amount ∧
    f.minOutput = g.minOutput ∧ f.sequenceNumber = g.sequenceNumber ∧
    f.destAddress = g.destAddress) ∨
  (f.principal = g.principal ∧ f.sourceChain = g.sourceChain ∧
    f.sourceSymbol = g.sourceSymbol ∧ f.destChain = g.destChain ∧
    f.destSymbol = g.destSymbol ∧ f.amount ≠ g.amount ∧
    f.minOutput = g.minOutput ∧ f.sequenceNumber = g.sequenceNumber ∧
    f.destAddress = g.destAddress) ∨
  (f.principal = g.principal ∧ f.sourceChain = g.sourceChain ∧
    f.sourceSymbol = g.sourceSymbol ∧ f.destChain = g.destChain ∧
    f.destSymbol = g.destSymbol ∧ f.amount = g.amount ∧
    f.minOutput ≠ g.minOutput ∧ f.sequenceNumber = g.sequenceNumber ∧
    f.destAddress = g.destAddress) ∨
  (f.principal = g.principal ∧ f.sourceChain = g.sourceChain ∧
    f.sourceSymbol = g.sourceSymbol ∧ f.destChain = g.destChain ∧
    f.destSymbol = g.destSymbol ∧ f.amount = g.amount ∧
    f.minOutput = g.minOutput ∧ f.sequenceNumber ≠ g.sequenceNumber ∧
    f.destAddress = g.destAddress) ∨
  (f.principal = g.principal ∧ f.sourceChain = g.sourceChain ∧
    f.sourceSymbol = g.sourceSymbol ∧ f.destChain = g.destChain ∧
    f.destSymbol = g.destSymbol ∧ f.amount = g.amount ∧
    f.minOutput = g.minOutput ∧ f.sequenceNumber = g.sequenceNumber ∧
    f.destAddress ≠ g.destAddress)

/-- External cryptographic libraries used by the frontend (js-sha256,
@noble/secp256k1 v1.7.1 with RFC 6979 deterministic signing, and the
principal derivation of @dfinity/identity-secp256k1), embedded as a record
of pure functions: each call site in the source passes only its explicit
arguments, so the embedding has no randomness or hidden state. -/
structure CryptoPrims where
  sha256 : Bytes → Bytes
  sha224 : Bytes → Bytes
  secpGetPublicKey : Bytes → Bytes
  secpSign : Bytes → Bytes → Bytes

/-- The fixed SPKI header bytes from `encodeSecp256k1PublicKeyDer`. -/
def spkiHeader : Bytes :=
  [0x30, 0x56, 0x30, 0x10, 0x06, 0x07, 0x2a, 0x86, 0x48, 0xce, 0x3d, 0x02,
   0x01, 0x06, 0x05, 0x2b, 0x81, 0x04, 0x00, 0x0a, 0x03, 0x42, 0x00]

/-- `encodeSecp256k1PublicKeyDer` from `App.jsx`: the fixed SPKI header
followed by the uncompressed secp256k1 public key of the private key. -/
def encodeSecp256k1PublicKeyDer (cp : CryptoPrims) (privateKey : Bytes) : Bytes :=
  spkiHeader ++ cp.secpGetPublicKey privateKey

/-- An identity as produced by `Secp256k1KeyIdentity.fromSecretKey`:
the secret key bytes and the derived self-authenticating principal. -/
structure Identity where
  secretKey : Bytes
  principal : Bytes
deriving DecidableEq

/-- `Principal.selfAuthenticating`: SHA-224 of the DER public key followed
by the self-authenticating marker byte `0x02`. -/
def selfAuthenticatingPrincipal (cp : CryptoPrims) (derKey : Bytes) : Bytes :=
  cp.sha224 derKey ++ [2]

/-- `handleSeedDerivation` (identity part) from `App.jsx` /
`hooks/useIdentity.js`: the secret key is the SHA-256 digest of the seed's
UTF-8 bytes, and the principal is derived from that key alone. -/
def deriveIdentity (cp : CryptoPrims) (seed : String) : Identity :=
  let seedBytes := cp.sha256 (utf8Bytes seed)
  { secretKey := seedBytes,
    principal :=
      selfAuthenticatingPrincipal cp (encodeSecp256k1PublicKeyDer cp seedBytes) }

/-- Signing a message with an identity, as in `handleGetDepositAddress`:
`secp256k1.sign(sha256(message), keyPair.secretKey.slice(0, 32))`. -/
def signWithIdentity (cp : CryptoPrims) (id : Identity) (message : Bytes) : Bytes :=
  cp.secpSign (cp.sha256 message) (id.secretKey.take 32)

/-- The two signature-scheme tags of the candid `SignatureType` variant. -/
inductive SignatureType
  | Secp256k1
  | Ed25519
deriving DecidableEq

/-- A chain/symbol pair, the candid `Asset` record. -/
structure Asset where
  chain : Chain
  symbol : AssetSymbol
deriving DecidableEq

/-- The candid `Intent` record built by `handleGetDepositAddress`. -/
structure SignedIntent where
  user : Bytes
  source_asset : Asset
  dest_asset : Asset
  dest_address : String
  amount : Nat
  min_output : Nat
  sequence_number : Nat
  public_key : Bytes
  signature : Bytes
  signature_type : SignatureType
deriving DecidableEq

/-- The intent construction of `handleGetDepositAddress` in `App.jsx`:
fetch the next sequence number from the matching engine, slice the first
32 bytes of the key pair secret as the private key, DER-encode the public
key, serialize the intent, hash it, sign the hash, and assemble the candid
record. `getNextSequenceNumber` stands for the engine query actor. -/
def buildSignedIntent (cp : CryptoPrims) (identity : Identity)
    (getNextSequenceNumber : Bytes → Nat) (sourceChain : Chain)
    (sourceSymbol : AssetSymbol) (destChain : Chain) (destSymbol : AssetSymbol)
    (amountBaseUnits minOutputBaseUnits : Nat) (destAddress : String) :
    SignedIntent :=
  let principal := identity.principal
  let sequenceNumber := getNextSequenceNumber principal
  let privateKey := identity.secretKey.take 32
  let publicKeyDer := encodeSecp256k1PublicKeyDer cp privateKey
  let messageToSign := serializeIntentForSigning principal sourceChain
    sourceSymbol destChain destSymbol amountBaseUnits minOutputBaseUnits
    sequenceNumber destAddress
  let msgHash := cp.sha256 messageToSign
  let signature := cp.secpSign msgHash privateKey
  { user := principal,
    source_asset := { chain := sourceChain, symbol := sourceSymbol },
    dest_asset := { chain := destChain, symbol := destSymbol },
    dest_address := destAddress,
    amount := amountBaseUnits,
    min_output := minOutputBaseUnits,
    sequence_number := sequenceNumber,
    public_key := publicKeyDer,
    signature := signature,
    signature_type := SignatureType.Secp256k1 }

/-- Concrete primitive instance used only to evaluate witnesses. -/
def demoPrims : CryptoPrims :=
  { sha256 := fun b => 0 :: b,
    sha224 := fun b => 1 :: b,
    secpGetPublicKey := fun k => 4 :: k,
    secpSign := fun h k => h ++ k }

/-- The candid `CHError` variant from `idl.js`. -/
inductive CHError
  | Unauthorized (msg : String)
  | InsufficientBalance (asset : AssetSymbol) (requested available : Nat)
  | ParsingError (msg : String)
  | ArithmeticError (msg : String)
  | TransferFailed (msg : String)
  | OrderNotFound (id : Nat)
  | MatchingError (msg : String)
  | InvalidIntent (msg : String)
  | EcdsaError (msg : String)
  | StorageError (msg : String)
  | Unknown (msg : String)
deriving DecidableEq

/-- Variant key of an `AssetSymbol` object (`Object.keys(value.asset)[0]`). -/
def assetName : AssetSymbol → String
  | .USDC => "USDC"
  | .EURC => "EURC"

/-- `formatCHError` from `utils/formatters.js`, applied to decoded candid
errors. `InsufficientBalance` gets a composed message; `Unauthorized` is
replaced by a fixed string, discarding its carried text; variants whose
payload is a string fall through to the default branch and are returned
verbatim. The nat64 payload of `OrderNotFound` decodes to a JavaScript
BigInt; when it is nonzero the default branch evaluates
`JSON.stringify` on it, which throws, so that case is `none`. -/
def formatCHError : CHError → Option String
  | .InsufficientBalance a r v =>
      some ("Insufficient " ++ assetName a ++ " balance: requested "
        ++ toString r ++ ", available " ++ toString v)
  | .Unauthorized _ => some "Permission denied: Unauthorized action"
  | .ParsingError m => some m
  | .ArithmeticError m => some m
  | .TransferFailed m => some m
  | .OrderNotFound i => if i = 0 then some "OrderNotFound" else none
  | .MatchingError m => some m
  | .InvalidIntent m => some m
  | .EcdsaError m => some m
  | .StorageError m => some m
  | .Unknown m => some m

/-- The candid `OrderStatus` variant from `idl.js`. -/
inductive OrderStatus
  | Locked
  | Settling
  | Settled
  | Cancelled
  | Failed (reason : String)
deriving DecidableEq

/-- The candid `SettlementResult` variant from `idl.js`. -/
inductive SettlementResult
  | Ok
  | Err (msg : String)
deriving DecidableEq

/-- The candid `Order` record from `idl.js`. -/
structure OrderRec where
  id : Nat
  status : OrderStatus
  intent : SignedIntent
  timestamp : Nat
  hash : Bytes
  prev_order_hash : Option Bytes
  settlement_result : Option SettlementResult
deriving DecidableEq

/-- Variant key of a status object (`Object.keys(order.status)[0]`). -/
def statusKey : OrderStatus → String
  | .Locked => "Locked"
  | .Settling => "Settling"
  | .Settled => "Settled"
  | .Cancelled => "Cancelled"
  | .Failed _ => "Failed"

/-- `OrdersTab.jsx` renders the cancel button exactly when
`statusKey === 'Locked'`. -/
def clientOffersCancel (s : OrderStatus) : Bool :=
  statusKey s == "Locked"

/-- Modelled from the spec: the Matching Engine canister implementing
`cancel_order` is not under `src/` (only its candid interface in `idl.js`
and its client are), so this follows §4.4–4.5 of the specification:
`cancel_order` succeeds iff the order's current status is `Locked`
(marking it `Cancelled`); on any other status, or an unknown id, it
returns an error and leaves the order log unchanged. -/
def cancel_order (orders : List OrderRec) (id : Nat) :
    Except CHError Unit × List OrderRec :=
  match orders.find? (fun o => o.id == id) with
  | none => (Except.error (CHError.OrderNotFound id), orders)
  | some o =>
    if o.status = OrderStatus.Locked then
      (Except.ok (),
        orders.map (fun q =>
          if q.id == id then { q with status := OrderStatus.Cancelled } else q))
    else
      (Except.error (CHError.Unauthorized "order is not in Locked state"),
        orders)

/-- Observable client effects of the cancel flow in `App.jsx`. -/
inductive ClientEffect
  | callCancel (id : Nat)
  | setStatus (s : String)
  | alertMsg (msg : String)
  | alertCaught
deriving DecidableEq

/-- `handleCancelOrder` from `App.jsx`: it issues exactly one
`cancel_order` call; on success it records the new status, on error it
surfaces `formatCHError` of the returned error in a single alert and does
not retry. `alertCaught` stands for the surrounding try/catch alert that
fires when `formatCHError` itself throws. -/
def handleCancelOrderEffects (id : Nat) (result : Except CHError Unit) :
    List ClientEffect :=
  ClientEffect.callCancel id ::
    match result with
    | .ok _ => [ClientEffect.setStatus "Cancelled"]
    | .error e =>
      match formatCHError e with
      | some msg => [ClientEffect.alertMsg ("Cancel Failed: " ++ msg)]
      | none => [ClientEffect.alertCaught]

/-- Concrete order used only to evaluate witnesses. -/
def demoOrder : OrderRec :=
  { id := 1,
    status := OrderStatus.Locked,
    intent :=
      { user := [4, 7],
        source_asset := { chain := Chain.ethereum, symbol := AssetSymbol.USDC },
        dest_asset := { chain := Chain.solana, symbol := AssetSymbol.USDC },
        dest_address := "a",
        amount := 100,
        min_output := 99,
        sequence_number := 0,
        public_key := [],
        signature := [],
        signature_type := SignatureType.Secp256k1 },
    timestamp := 0,
    hash := [],
    prev_order_hash := none,
    settlement_result := none }

/-- A settled-or-pending JavaScript promise in a discrete-time model: the
millisecond at which it settles (`none` if it never settles) and its
outcome. -/
structure JSPromise (α : Type) where
  settleTime : Option Nat
  result : Except String α

/-- `withTimeout` from `utils/timeout.js`: `Promise.race` of the wrapped
promise against a timer that rejects with `Request timed out` after `ms`
milliseconds. The race yields whichever settles first; the wrapped promise
wins ties because its callbacks were registered before the timer. -/
def withTimeout {α : Type} (p : JSPromise α) (ms : Nat) : JSPromise α :=
  match p.settleTime with
  | some t =>
    if t ≤ ms then { settleTime := some t, result := p.result }
    else { settleTime := some ms, result := Except.error "Request timed out" }
  | none => { settleTime := some ms, result := Except.error "Request timed out" }

/-- One balance row as assembled by the fetch helpers. -/
structure BalanceEntry where
  symbol : String
  amount : String
  isNative : Bool
deriving DecidableEq

/-- Observable effects of the balance-fetch flow in `hooks/useBalances.js`. -/
inductive BalanceEffect
  | remoteFetch (chain : Chain) (addr : String)
  | setResultsOk (chain : Chain) (addr : String) (balances : List BalanceEntry)
  | setResultsErr (chain : Chain) (addr : String) (errMsg : String)
  | toastError (msg : String)
deriving DecidableEq

/-- `fetchChain` from `hooks/useBalances.js`: a single remote fetch wrapped
in `withTimeout(…, 15000)`; on success the results entry is updated, on
failure the entry records the error message (`err.message || 'Fetch
failed'`) and an error toast is shown; the call is never re-issued. -/
def fetchChain (p : JSPromise (List BalanceEntry)) (addr : String)
    (ct : Chain) : List BalanceEffect :=
  BalanceEffect.remoteFetch ct addr ::
    match (withTimeout p 15000).result with
    | Except.ok balances => [BalanceEffect.setResultsOk ct addr balances]
    | Except.error e =>
        [BalanceEffect.setResultsErr ct addr
           (if e = "" then "Fetch failed" else e),
         BalanceEffect.toastError ("Failed to fetch "
           ++ (if ct = Chain.ethereum then "Sepolia" else "Devnet")
           ++ " balances")]

/-- `amount.split('.')` on a character list, as JavaScript `split` with a
one-character separator behaves (the empty string splits to `[""]`). -/
def splitOnDot : List Char → List (List Char)
  | [] => [[]]
  | c :: t =>
    if c = '.' then [] :: splitOnDot t
    else
      match splitOnDot t with
      | [] => [[c]]
      | h :: r => (c :: h) :: r

/-- Decimal value of a digit list, most significant first. -/
def natOfDigits (l : List Char) : Nat :=
  l.foldl (fun a c => a * 10 + (c.toNat - 48)) 0

/-- `BigInt(s)` restricted to the digit strings `toBaseUnits` builds:
a digit-only string (including the empty string, which is `0n`) parses to
its decimal value; anything else throws, modelled as `none`. -/
def jsBigIntOfDigits (l : List Char) : Option Nat :=
  if l.all Char.isDigit then some (natOfDigits l) else none

/-- `toBaseUnits` from `utils/formatters.js`, parameterized by the token's
configured decimals (the lookup reads the static `config.json` registry):
split the amount on the dot, right-pad the fractional part with zeros and
truncate it to `decimals` digits, concatenate with the whole part and
convert through BigInt — pure string manipulation, no floating point. -/
def toBaseUnits (decimals : Nat) (amount : String) : Option Nat :=
  let parts := splitOnDot amount.data
  let whole := parts.headD []
  let frac := (parts.drop 1).headD []
  let fracPadded :=
    (frac ++ List.replicate (decimals - frac.length) '0').take decimals
  jsBigIntOfDigits (whole ++ fracPadded)

/-- `fetchOrders` from `hooks/useOrders.js`: query `list_orders`, restrict
to the connected principal's orders unless the All Orders view is chosen,
and sort by numeric id descending (the comparator
`Number(b.id) - Number(a.id)`, exact on the ids in range). The function
only reads: the displayed list is computed from the engine's answer. -/
def fetchOrders (showAllOrders : Bool) (identity : Option Bytes)
    (allOrders : List OrderRec) : List OrderRec :=
  let displayOrders :=
    match showAllOrders, identity with
    | false, some p => allOrders.filter (fun (o : OrderRec) => o.intent.user == p)
    | _, _ => allOrders
  displayOrders.mergeSort (fun a b => decide (b.id ≤ a.id))

/-- Concrete order list used only to evaluate witnesses. -/
def demoOrders : List OrderRec :=
  [demoOrder, { demoOrder with id := 2 }]

-- ### Theorems

theorem utf8EncodeCharNat_ne_nil (c : Nat) : utf8EncodeCharNat c ≠ [] := by
  unfold utf8EncodeCharNat
  split <;> try simp
  split <;> try simp
  split <;> simp

theorem utf8Val_encode (c : Nat) : utf8Val (utf8EncodeCharNat c) = c := by
  unfold utf8EncodeCharNat
  by_cases a1 : c < 0x80
  · simp only [if_pos a1, utf8Val]
  · by_cases a2 : c < 0x800
    · simp only [if_neg a1, if_pos a2, utf8Val]
      omega
    · by_cases a3 : c < 0x10000
      · simp only [if_neg a1, if_neg a2, if_pos a3, utf8Val]
        omega
      · simp only [if_neg a1, if_neg a2, if_neg a3, utf8Val]
        omega

theorem utf8ByteClass_headD (c : Nat) (hc : c < 1114112) :
    utf8ByteClass ((utf8EncodeCharNat c).headD 0) = (utf8EncodeCharNat c).length := by
  unfold utf8EncodeCharNat utf8ByteClass
  by_cases a1 : c < 0x80
  · simp only [if_pos a1, List.headD_cons, List.length_singleton]
  · by_cases a2 : c < 0x800
    · simp only [if_neg a1, if_pos a2, List.headD_cons, List.length_cons,
        List.length_nil]
      rw [if_neg (by omega), if_neg (by omega), if_pos (by omega)]
    · by_cases a3 : c < 0x10000
      · simp only [if_neg a1, if_neg a2, if_pos a3, List.headD_cons,
          List.length_cons, List.length_nil]
        rw [if_neg (by omega), if_neg (by omega), if_neg (by omega),
          if_pos (by omega)]
      · simp only [if_neg a1, if_neg a2, if_neg a3, List.headD_cons,
          List.length_cons, List.length_nil]
        rw [if_neg (by omega), if_neg (by omega), if_neg (by omega),
          if_neg (by omega)]

theorem utf8Encode_append_inj {c₁ c₂ : Nat} {r₁ r₂ : List Nat}
    (h₁ : c₁ < 1114112) (h₂ : c₂ < 1114112)
    (h : utf8EncodeCharNat c₁ ++ r₁ = utf8EncodeCharNat c₂ ++ r₂) :
    c₁ = c₂ ∧ r₁ = r₂ := by
  have hhead : (utf8EncodeCharNat c₁).headD 0 = (utf8EncodeCharNat c₂).headD 0 := by
    obtain ⟨x, xs, hx⟩ := List.exists_cons_of_ne_nil (utf8EncodeCharNat_ne_nil c₁)
    obtain ⟨y, ys, hy⟩ := List.exists_cons_of_ne_nil (utf8EncodeCharNat_ne_nil c₂)
    rw [hx, hy] at h ⊢
    simp only [List.cons_append, List.cons.injEq] at h
    simp [h.1]
  have hlen : (utf8EncodeCharNat c₁).length = (utf8EncodeCharNat c₂).length := by
    rw [← utf8ByteClass_headD c₁ h₁, ← utf8ByteClass_headD c₂ h₂, hhead]
  obtain ⟨henc, hrest⟩ := List.append_inj h hlen
  refine ⟨?_, hrest⟩
  have hv₁ := utf8Val_encode c₁
  rw [henc, utf8Val_encode c₂] at hv₁
  omega

theorem charToNat_lt (c : Char) : c.toNat < 1114112 := by
  have h := c.valid
  unfold Char.toNat
  rcases h with h | h <;> omega

theorem utf8CharList_encode_inj :
    ∀ l₁ l₂ : List Char,
      l₁.foldr (fun c acc => utf8EncodeCharNat c.toNat ++ acc) []
        = l₂.foldr (fun c acc => utf8EncodeCharNat c.toNat ++ acc) [] →
      l₁ = l₂ := by
  intro l₁
  induction l₁ with
  | nil =>
    intro l₂ h
    cases l₂ with
    | nil => rfl
    | cons y t =>
      simp only [List.foldr] at h
      exact absurd (List.append_eq_nil.mp h.symm).1 (utf8EncodeCharNat_ne_nil _)
  | cons x xs ih =>
    intro l₂ h
    cases l₂ with
    | nil =>
      simp only [List.foldr] at h
      exact absurd (List.append_eq_nil.mp h).1 (utf8EncodeCharNat_ne_nil _)
    | cons y t =>
      simp only [List.foldr] at h
      obtain ⟨hc, hr⟩ := utf8Encode_append_inj (charToNat_lt x) (charToNat_lt y) h
      have hx : x = y := Char.ext (UInt32.ext hc)
      rw [hx, ih t hr]

theorem utf8Bytes_injective {s₁ s₂ : String}
    (h : utf8Bytes s₁ = utf8Bytes s₂) : s₁ = s₂ := by
  have hd : s₁.data = s₂.data := utf8CharList_encode_inj s₁.data s₂.data h
  cases s₁
  cases s₂
  exact congrArg String.mk hd

theorem beBytes_length (k : Nat) : ∀ n, (beBytes k n).length = k := by
  induction k with
  | zero => intro n; rfl
  | succ k ih =>
    intro n
    simp [beBytes, ih]

theorem beVal_beBytes (k : Nat) : ∀ n, beVal (beBytes k n) = n % 256 ^ k := by
  induction k with
  | zero => intro n; simp [beBytes, beVal, Nat.mod_one]
  | succ k ih =>
    intro n
    unfold beBytes beVal
    rw [List.foldl_append]
    have hfold : beVal (beBytes k (n / 256)) = n / 256 % 256 ^ k := ih (n / 256)
    unfold beVal at hfold
    rw [hfold]
    simp only [List.foldl]
    rw [pow_succ, Nat.mul_comm (256 ^ k) 256, Nat.mod_mul]
    ring

theorem beBytes_inj {k a b : Nat} (ha : a < 256 ^ k) (hb : b < 256 ^ k)
    (h : beBytes k a = beBytes k b) : a = b := by
  have hv : beVal (beBytes k a) = beVal (beBytes k b) := by rw [h]
  rw [beVal_beBytes, beVal_beBytes, Nat.mod_eq_of_lt ha, Nat.mod_eq_of_lt hb] at hv
  exact hv

theorem setBigUint64BE_eq_beBytes (n : Nat) (h : n < 2 ^ 64) :
    setBigUint64BE n = beBytes 8 n := by
  have hmod : n % 2 ^ 64 = n := Nat.mod_eq_of_lt h
  unfold setBigUint64BE
  simp only [hmod]
  simp [List.range_succ, beBytes, Nat.div_div_eq_div_mul]

/-- C1: the canonical encoding produced by `serializeIntentForSigning` is
exactly the concatenation, in order and with no delimiters or version byte,
of the principal bytes, the four one-byte chain/asset tags, the three
8-byte big-endian u64 fields (amount, minimum output, sequence number),
and the raw UTF-8 bytes of the destination address. -/
theorem serializeIntent_matches_canonical_layout
    (principal : Bytes) (sc : Chain) (ss : AssetSymbol) (dc : Chain)
    (ds : AssetSymbol) (amount minOutput seq : Nat) (destAddress : String)
    (ha : amount < 2 ^ 64) (hm : minOutput < 2 ^ 64) (hs : seq < 2 ^ 64) :
    serializeIntentForSigning principal sc ss dc ds amount minOutput seq destAddress
      = canonicalIntentBytes_spec principal (CHAIN_IDS sc) (ASSET_IDS ss)
          (CHAIN_IDS dc) (ASSET_IDS ds) amount minOutput seq destAddress := by
  unfold serializeIntentForSigning canonicalIntentBytes_spec
  rw [setBigUint64BE_eq_beBytes amount ha, setBigUint64BE_eq_beBytes minOutput hm,
    setBigUint64BE_eq_beBytes seq hs]
  simp

/-- Witness for C1 at a concrete intent. -/
theorem serializeIntent_matches_canonical_layout_witness :
    (100 : Nat) < 2 ^ 64 ∧
      serializeIntentForSigning [4, 7] Chain.ethereum AssetSymbol.USDC
          Chain.solana AssetSymbol.EURC 100 99 0 "addr"
        = canonicalIntentBytes_spec [4, 7] 1 1 2 2 100 99 0 "addr" :=
  ⟨by norm_num,
    serializeIntent_matches_canonical_layout [4, 7] Chain.ethereum
      AssetSymbol.USDC Chain.solana AssetSymbol.EURC 100 99 0 "addr"
      (by norm_num) (by norm_num) (by norm_num)⟩

theorem setBigUint64BE_length (n : Nat) : (setBigUint64BE n).length = 8 := by
  simp [setBigUint64BE]

theorem CHAIN_IDS_injective {a b : Chain} (h : CHAIN_IDS a = CHAIN_IDS b) :
    a = b := by
  cases a <;> cases b <;> first | rfl | exact absurd h (by decide)

theorem ASSET_IDS_injective {a b : AssetSymbol}
    (h : ASSET_IDS a = ASSET_IDS b) : a = b := by
  cases a <;> cases b <;> first | rfl | exact absurd h (by decide)

theorem setBigUint64BE_inj {a b : Nat} (ha : a < 2 ^ 64) (hb : b < 2 ^ 64)
    (h : setBigUint64BE a = setBigUint64BE b) : a = b := by
  rw [setBigUint64BE_eq_beBytes a ha, setBigUint64BE_eq_beBytes b hb] at h
  exact beBytes_inj (by norm_num at ha ⊢; omega) (by norm_num at hb ⊢; omega) h

theorem encodeFields_inj (f g : IntentFields) (hf : U64Fields f)
    (hg : U64Fields g) (hlen : f.principal.length = g.principal.length)
    (h : encodeFields f = encodeFields g) : f = g := by
  obtain ⟨hfa, hfm, hfs⟩ := hf
  obtain ⟨hga, hgm, hgs⟩ := hg
  unfold encodeFields serializeIntentForSigning at h
  simp only [List.append_assoc, List.cons_append, List.nil_append] at h
  obtain ⟨hp, h⟩ := List.append_inj h hlen
  simp only [List.cons.injEq] at h
  obtain ⟨h1, h2, h3, h4, h⟩ := h
  obtain ⟨hA, h⟩ := List.append_inj h
    (by rw [setBigUint64BE_length, setBigUint64BE_length])
  obtain ⟨hM, h⟩ := List.append_inj h
    (by rw [setBigUint64BE_length, setBigUint64BE_length])
  obtain ⟨hS, hU⟩ := List.append_inj h
    (by rw [setBigUint64BE_length, setBigUint64BE_length])
  have ep : f.principal = g.principal := hp
  have e1 : f.sourceChain = g.sourceChain := CHAIN_IDS_injective h1
  have e2 : f.sourceSymbol = g.sourceSymbol := ASSET_IDS_injective h2
  have e3 : f.destChain = g.destChain := CHAIN_IDS_injective h3
  have e4 : f.destSymbol = g.destSymbol := ASSET_IDS_injective h4
  have ea : f.amount = g.amount := setBigUint64BE_inj hfa hga hA
  have em : f.minOutput = g.minOutput := setBigUint64BE_inj hfm hgm hM
  have es : f.sequenceNumber = g.sequenceNumber := setBigUint64BE_inj hfs hgs hS
  have ed : f.destAddress = g.destAddress := utf8Bytes_injective hU
  cases f
  cases g
  simp_all

/-- C5: for every pair of intents that agree on every field except exactly
one covered field (principal, a chain or asset tag, amount, minimum output,
sequence number, or destination address), the canonical encodings produced
by `serializeIntentForSigning` differ. -/
theorem encode_changes_when_one_field_changes (f g : IntentFields)
    (hf : U64Fields f) (hg : U64Fields g)
    (hdiff : DiffersInExactlyOneField f g) :
    encodeFields f ≠ encodeFields g := by
  intro h
  rcases hdiff with
      ⟨hne, e1, e2, e3, e4, e5, e6, e7, e8⟩ |
      ⟨e1, hne, e2, e3, e4, e5, e6, e7, e8⟩ |
      ⟨e1, e2, hne, e3, e4, e5, e6, e7, e8⟩ |
      ⟨e1, e2, e3, hne, e4, e5, e6, e7, e8⟩ |
      ⟨e1, e2, e3, e4, hne, e5, e6, e7, e8⟩ |
      ⟨e1, e2, e3, e4, e5, hne, e6, e7, e8⟩ |
      ⟨e1, e2, e3, e4, e5, e6, hne, e7, e8⟩ |
      ⟨e1, e2, e3, e4, e5, e6, e7, hne, e8⟩ |
      ⟨e1, e2, e3, e4, e5, e6, e7, e8, hne⟩
  · unfold encodeFields serializeIntentForSigning at h
    rw [e1, e2, e3, e4, e5, e6, e7, e8] at h
    simp only [List.append_assoc] at h
    exact hne (List.append_cancel_right h)
  all_goals
    exact hne (by rw [encodeFields_inj f g hf hg (by rw [e1]) h])

/-- Witness for C5: two intents differing only in the amount encode to
different byte strings. -/
theorem encode_changes_when_one_field_changes_witness :
    DiffersInExactlyOneField
        (IntentFields.mk [4, 7] Chain.ethereum AssetSymbol.USDC Chain.solana
          AssetSymbol.USDC 100 99 0 "a")
        (IntentFields.mk [4, 7] Chain.ethereum AssetSymbol.USDC Chain.solana
          AssetSymbol.USDC 101 99 0 "a") ∧
      encodeFields
          (IntentFields.mk [4, 7] Chain.ethereum AssetSymbol.USDC Chain.solana
            AssetSymbol.USDC 100 99 0 "a")
        ≠ encodeFields
            (IntentFields.mk [4, 7] Chain.ethereum AssetSymbol.USDC
              Chain.solana AssetSymbol.USDC 101 99 0 "a") := by
  have hdiff : DiffersInExactlyOneField
      (IntentFields.mk [4, 7] Chain.ethereum AssetSymbol.USDC Chain.solana
        AssetSymbol.USDC 100 99 0 "a")
      (IntentFields.mk [4, 7] Chain.ethereum AssetSymbol.USDC Chain.solana
        AssetSymbol.USDC 101 99 0 "a") :=
    Or.inr (Or.inr (Or.inr (Or.inr (Or.inr (Or.inl
      ⟨rfl, rfl, rfl, rfl, rfl, by decide, rfl, rfl, rfl⟩)))))
  exact ⟨hdiff,
    encode_changes_when_one_field_changes _ _
      ⟨by norm_num, by norm_num, by norm_num⟩
      ⟨by norm_num, by norm_num, by norm_num⟩ hdiff⟩

/-- C2: deriving the identity from a seed twice yields the identical secret
key (the SHA-256 digest of the seed's UTF-8 bytes), identical principal,
and identical signatures over the same intent bytes: derivation and signing
are deterministic functions of the seed and the intent. -/
theorem seed_derivation_deterministic (cp : CryptoPrims) (s₁ s₂ : String)
    (message : Bytes) (h : s₁ = s₂) :
    (deriveIdentity cp s₁).secretKey = cp.sha256 (utf8Bytes s₁) ∧
      deriveIdentity cp s₁ = deriveIdentity cp s₂ ∧
      (deriveIdentity cp s₁).principal = (deriveIdentity cp s₂).principal ∧
      signWithIdentity cp (deriveIdentity cp s₁) message
        = signWithIdentity cp (deriveIdentity cp s₂) message := by
  subst h
  exact ⟨rfl, rfl, rfl, rfl⟩

/-- Witness for C2 at the seed of the end-to-end scenario. -/
theorem seed_derivation_deterministic_witness :
    "Alice" = "Alice" ∧
      deriveIdentity demoPrims "Alice" = deriveIdentity demoPrims "Alice" :=
  ⟨rfl, (seed_derivation_deterministic demoPrims "Alice" "Alice" [] rfl).2.1⟩

/-- C3: the signature attached to an intent is computed over the SHA-256
hash of the canonical encoding of that intent using the private key sliced
from the identity's key pair, and the attached public key is the fixed
DER/SPKI encoding of the corresponding uncompressed secp256k1 public key. -/
theorem signature_over_hash_of_canonical_encoding (cp : CryptoPrims)
    (identity : Identity) (seqOf : Bytes → Nat) (sc : Chain)
    (ss : AssetSymbol) (dc : Chain) (ds : AssetSymbol)
    (amount minOutput : Nat) (destAddress : String) :
    (buildSignedIntent cp identity seqOf sc ss dc ds amount minOutput
        destAddress).signature
        = cp.secpSign
            (cp.sha256 (serializeIntentForSigning identity.principal sc ss dc
              ds amount minOutput (seqOf identity.principal) destAddress))
            (identity.secretKey.take 32) ∧
      (buildSignedIntent cp identity seqOf sc ss dc ds amount minOutput
          destAddress).public_key
        = spkiHeader ++ cp.secpGetPublicKey (identity.secretKey.take 32) ∧
      (buildSignedIntent cp identity seqOf sc ss dc ds amount minOutput
          destAddress).signature_type = SignatureType.Secp256k1 :=
  ⟨rfl, rfl, rfl⟩

/-- C4: the intent record submitted to the custody service and the matching
engine carries exactly the field values that were canonically serialized
and signed, with the chain and asset tags drawn from the single shared tag
table (ethereum=1, solana=2, USDC=1, EURC=2) and a sequence number equal to
the engine's `get_next_sequence_number` for that principal. -/
theorem submitted_intent_carries_signed_fields (cp : CryptoPrims)
    (identity : Identity) (seqOf : Bytes → Nat) (sc : Chain)
    (ss : AssetSymbol) (dc : Chain) (ds : AssetSymbol)
    (amount minOutput : Nat) (destAddress : String) :
    (buildSignedIntent cp identity seqOf sc ss dc ds amount minOutput
        destAddress).user = identity.principal ∧
      (buildSignedIntent cp identity seqOf sc ss dc ds amount minOutput
          destAddress).source_asset = Asset.mk sc ss ∧
      (buildSignedIntent cp identity seqOf sc ss dc ds amount minOutput
          destAddress).dest_asset = Asset.mk dc ds ∧
      (buildSignedIntent cp identity seqOf sc ss dc ds amount minOutput
          destAddress).amount = amount ∧
      (buildSignedIntent cp identity seqOf sc ss dc ds amount minOutput
          destAddress).min_output = minOutput ∧
      (buildSignedIntent cp identity seqOf sc ss dc ds amount minOutput
          destAddress).dest_address = destAddress ∧
      (buildSignedIntent cp identity seqOf sc ss dc ds amount minOutput
          destAddress).sequence_number = seqOf identity.principal ∧
      CHAIN_IDS Chain.ethereum = 1 ∧ CHAIN_IDS Chain.solana = 2 ∧
      ASSET_IDS AssetSymbol.USDC = 1 ∧ ASSET_IDS AssetSymbol.EURC = 2 ∧
      (buildSignedIntent cp identity seqOf sc ss dc ds amount minOutput
          destAddress).signature
        = cp.secpSign
            (cp.sha256 (serializeIntentForSigning
              (buildSignedIntent cp identity seqOf sc ss dc ds amount
                minOutput destAddress).user
              (buildSignedIntent cp identity seqOf sc ss dc ds amount
                minOutput destAddress).source_asset.chain
              (buildSignedIntent cp identity seqOf sc ss dc ds amount
                minOutput destAddress).source_asset.symbol
              (buildSignedIntent cp identity seqOf sc ss dc ds amount
                minOutput destAddress).dest_asset.chain
              (buildSignedIntent cp identity seqOf sc ss dc ds amount
                minOutput destAddress).dest_asset.symbol
              (buildSignedIntent cp identity seqOf sc ss dc ds amount
                minOutput destAddress).amount
              (buildSignedIntent cp identity seqOf sc ss dc ds amount
                minOutput destAddress).min_output
              (buildSignedIntent cp identity seqOf sc ss dc ds amount
                minOutput destAddress).sequence_number
              (buildSignedIntent cp identity seqOf sc ss dc ds amount
                minOutput destAddress).dest_address))
            (identity.secretKey.take 32) :=
  ⟨rfl, rfl, rfl, rfl, rfl, rfl, rfl, rfl, rfl, rfl, rfl, rfl⟩

/-- C6: `cancel_order` succeeds iff the order's current status is `Locked`;
cancelling an order in any other status (or an unknown id) returns an error
and leaves the order log unchanged, and the client offers the cancel action
exactly for orders whose status is `Locked`. -/
theorem cancel_order_succeeds_iff_locked (orders : List OrderRec) (id : Nat)
    (s : OrderStatus) :
    ((cancel_order orders id).1.isOk = true ↔
        ∃ o, orders.find? (fun q => q.id == id) = some o ∧
          o.status = OrderStatus.Locked) ∧
      (∀ o, orders.find? (fun q => q.id == id) = some o →
        o.status ≠ OrderStatus.Locked →
        (cancel_order orders id).1.isOk = false ∧
          (cancel_order orders id).2 = orders) ∧
      (orders.find? (fun q => q.id == id) = none →
        (cancel_order orders id).1.isOk = false ∧
          (cancel_order orders id).2 = orders) ∧
      (clientOffersCancel s = true ↔ s = OrderStatus.Locked) := by
  refine ⟨?_, ?_, ?_, ?_⟩
  · unfold cancel_order
    split
    next hnone =>
      rw [hnone]
      constructor
      · intro h
        simp [Except.isOk, Except.toBool] at h
      · rintro ⟨o₂, ho₂, hst⟩
        exact Option.noConfusion ho₂
    next o hsome =>
      rw [hsome]
      by_cases hs : o.status = OrderStatus.Locked
      · rw [if_pos hs]
        exact ⟨fun _ => ⟨o, rfl, hs⟩, fun _ => rfl⟩
      · rw [if_neg hs]
        constructor
        · intro h
          simp [Except.isOk, Except.toBool] at h
        · rintro ⟨o₂, ho₂, hst⟩
          rw [Option.some.injEq] at ho₂
          exact (hs (ho₂ ▸ hst)).elim
  · intro o hfind hs
    unfold cancel_order
    split
    next hnone =>
      rw [hfind] at hnone
      exact Option.noConfusion hnone
    next o₂ hsome =>
      rw [hfind, Option.some.injEq] at hsome
      subst hsome
      rw [if_neg hs]
      exact ⟨rfl, rfl⟩
  · intro hfind
    unfold cancel_order
    split
    next hnone => exact ⟨rfl, rfl⟩
    next o₂ hsome =>
      rw [hfind] at hsome
      exact Option.noConfusion hsome
  · cases s <;> simp [clientOffersCancel, statusKey]

/-- Witness for C6: cancelling a `Locked` order succeeds, cancelling a
`Settled` order fails and leaves the log unchanged. -/
theorem cancel_order_succeeds_iff_locked_witness :
    (cancel_order [demoOrder] 1).1.isOk = true ∧
      (cancel_order [{ demoOrder with status := OrderStatus.Settled }] 1).1.isOk
          = false ∧
      (cancel_order [{ demoOrder with status := OrderStatus.Settled }] 1).2
        = [{ demoOrder with status := OrderStatus.Settled }] := by
  have h₁ := cancel_order_succeeds_iff_locked [demoOrder] 1 OrderStatus.Locked
  have h₂ := cancel_order_succeeds_iff_locked
    [{ demoOrder with status := OrderStatus.Settled }] 1 OrderStatus.Locked
  have hfail := h₂.2.1 { demoOrder with status := OrderStatus.Settled }
    (by rfl) (by decide)
  exact ⟨h₁.1.mpr ⟨demoOrder, by rfl, rfl⟩, hfail.1, hfail.2⟩

/-- C7 counterexample: the error-formatting path does not deliver the
message text carried inside an `Unauthorized` variant unaltered; it
replaces it by a fixed string. -/
theorem formatCHError_unauthorized_not_verbatim :
    formatCHError (CHError.Unauthorized "sequence number mismatch")
        = some "Permission denied: Unauthorized action" ∧
      formatCHError (CHError.Unauthorized "sequence number mismatch")
        ≠ some "sequence number mismatch" :=
  ⟨rfl, by decide⟩

/-- C7 amended: a signature/sequence/authorization failure is surfaced to
the caller once and never retried automatically (the cancel error path
issues exactly one call and one alert); the formatter maps `Unauthorized`
to the fixed string `Permission denied: Unauthorized action`, discarding
the carried message, while variants without special formatting are
delivered verbatim. -/
theorem formatCHError_fixed_unauthorized_others_verbatim (m : String)
    (id : Nat) (r : Except CHError Unit) :
    formatCHError (CHError.Unauthorized m)
        = some "Permission denied: Unauthorized action" ∧
      formatCHError (CHError.ParsingError m) = some m ∧
      formatCHError (CHError.ArithmeticError m) = some m ∧
      formatCHError (CHError.TransferFailed m) = some m ∧
      formatCHError (CHError.MatchingError m) = some m ∧
      formatCHError (CHError.InvalidIntent m) = some m ∧
      formatCHError (CHError.EcdsaError m) = some m ∧
      formatCHError (CHError.StorageError m) = some m ∧
      formatCHError (CHError.Unknown m) = some m ∧
      (handleCancelOrderEffects id r).countP
          (fun e => match e with
            | ClientEffect.callCancel _ => true
            | _ => false) = 1 ∧
      (∀ e msg, r = Except.error e → formatCHError e = some msg →
        handleCancelOrderEffects id r
          = [ClientEffect.callCancel id,
             ClientEffect.alertMsg ("Cancel Failed: " ++ msg)]) := by
  refine ⟨rfl, rfl, rfl, rfl, rfl, rfl, rfl, rfl, rfl, ?_, ?_⟩
  · cases r with
    | ok u => simp [handleCancelOrderEffects]
    | error e =>
      cases hfe : formatCHError e <;>
        simp [handleCancelOrderEffects, hfe]
  · intro e msg hr hfe
    subst hr
    simp [handleCancelOrderEffects, hfe]

/-- Witness for C7's amended claim: a `TransferFailed` error is surfaced
verbatim in a single alert after the single cancel call. -/
theorem formatCHError_fixed_unauthorized_others_verbatim_witness :
    handleCancelOrderEffects 3 (Except.error (CHError.TransferFailed "boom"))
      = [ClientEffect.callCancel 3,
         ClientEffect.alertMsg ("Cancel Failed: " ++ "boom")] := by
  have h := formatCHError_fixed_unauthorized_others_verbatim "boom" 3
    (Except.error (CHError.TransferFailed "boom"))
  exact h.2.2.2.2.2.2.2.2.2.2 (CHError.TransferFailed "boom") "boom" rfl rfl

/-- C8: `withTimeout(p, ms)` yields p's own result whenever p settles
within `ms` milliseconds and rejects with `Request timed out` when p has
not settled within `ms`; `fetchChain` wraps its single remote balance
fetch in this timeout with a 15000 ms deadline and on timeout only records
the failure, never re-issuing the call. -/
theorem withTimeout_races_and_fetchChain_no_retry {α : Type}
    (p : JSPromise α) (ms t : Nat) (bp : JSPromise (List BalanceEntry))
    (addr : String) (ct : Chain) :
    (p.settleTime = some t → t ≤ ms →
      withTimeout p ms = { settleTime := some t, result := p.result }) ∧
      ((∀ u, p.settleTime = some u → ms < u) →
        (withTimeout p ms).result = Except.error "Request timed out") ∧
      (fetchChain bp addr ct).countP
          (fun e => match e with
            | BalanceEffect.remoteFetch _ _ => true
            | _ => false) = 1 ∧
      (∀ balances, (withTimeout bp 15000).result = Except.ok balances →
        fetchChain bp addr ct
          = [BalanceEffect.remoteFetch ct addr,
             BalanceEffect.setResultsOk ct addr balances]) ∧
      (∀ u, bp.settleTime = some u → 15000 < u →
        fetchChain bp addr ct
          = [BalanceEffect.remoteFetch ct addr,
             BalanceEffect.setResultsErr ct addr "Request timed out",
             BalanceEffect.toastError ("Failed to fetch "
               ++ (if ct = Chain.ethereum then "Sepolia" else "Devnet")
               ++ " balances")]) := by
  refine ⟨?_, ?_, ?_, ?_, ?_⟩
  · intro h1 h2
    simp [withTimeout, h1, h2]
  · intro hall
    cases hst : p.settleTime with
    | none => simp [withTimeout, hst]
    | some u =>
      have hu := hall u hst
      simp [withTimeout, hst, show ¬ u ≤ ms by omega]
  · cases hres : (withTimeout bp 15000).result <;>
      simp [fetchChain, hres, List.countP_cons, List.countP_nil]
  · intro balances hok
    simp [fetchChain, hok]
  · intro u hu hlt
    have hres : (withTimeout bp 15000).result = Except.error "Request timed out" := by
      simp [withTimeout, hu, show ¬ u ≤ 15000 by omega]
    simp [fetchChain, hres]

/-- Witness for C8: a fetch that would settle at 20000 ms times out at the
15000 ms deadline and only records the failure. -/
theorem withTimeout_races_and_fetchChain_no_retry_witness :
    fetchChain (JSPromise.mk (some 20000) (Except.ok [])) "0xabc" Chain.ethereum
      = [BalanceEffect.remoteFetch Chain.ethereum "0xabc",
         BalanceEffect.setResultsErr Chain.ethereum "0xabc" "Request timed out",
         BalanceEffect.toastError ("Failed to fetch "
           ++ (if Chain.ethereum = Chain.ethereum then "Sepolia" else "Devnet")
           ++ " balances")] := by
  have h := withTimeout_races_and_fetchChain_no_retry
    (JSPromise.mk (some 20000) (Except.ok ([] : List BalanceEntry))) 15000 20000
    (JSPromise.mk (some 20000) (Except.ok [])) "0xabc" Chain.ethereum
  exact h.2.2.2.2 20000 rfl (by norm_num)

theorem splitOnDot_no_dot (l : List Char) (h : ∀ c ∈ l, c ≠ '.') :
    splitOnDot l = [l] := by
  induction l with
  | nil => rfl
  | cons c t ih =>
    have hc : c ≠ '.' := h c (by simp)
    have ht : splitOnDot t = [t] := ih (fun x hx => h x (by simp [hx]))
    simp [splitOnDot, hc, ht]

theorem splitOnDot_append (W F : List Char) (hW : ∀ c ∈ W, c ≠ '.')
    (hF : ∀ c ∈ F, c ≠ '.') : splitOnDot (W ++ '.' :: F) = [W, F] := by
  induction W with
  | nil =>
    simp [splitOnDot, splitOnDot_no_dot F hF]
  | cons c t ih =>
    have hc : c ≠ '.' := hW c (by simp)
    have ht := ih (fun x hx => hW x (by simp [hx]))
    simp [splitOnDot, hc, ht]

theorem natOfDigits_foldl_shift (l : List Char) :
    ∀ init : Nat,
      l.foldl (fun a c => a * 10 + (c.toNat - 48)) init
        = init * 10 ^ l.length + natOfDigits l := by
  induction l with
  | nil => intro init; simp [natOfDigits]
  | cons c t ih =>
    intro init
    have h1 := ih (init * 10 + (c.toNat - 48))
    have h2 := ih (c.toNat - 48)
    simp only [List.foldl_cons, List.length_cons, natOfDigits] at *
    rw [h1]
    have h0 : t.foldl (fun a c => a * 10 + (c.toNat - 48)) (0 * 10 + (c.toNat - 48))
        = (c.toNat - 48) * 10 ^ t.length + t.foldl (fun a c => a * 10 + (c.toNat - 48)) 0 := by
      rw [show 0 * 10 + (c.toNat - 48) = c.toNat - 48 by omega, h2]
    rw [h0, pow_succ]
    ring

theorem natOfDigits_append (a b : List Char) :
    natOfDigits (a ++ b) = natOfDigits a * 10 ^ b.length + natOfDigits b := by
  unfold natOfDigits
  rw [List.foldl_append]
  exact natOfDigits_foldl_shift b _

theorem natOfDigits_replicate_zero (n : Nat) :
    natOfDigits (List.replicate n '0') = 0 := by
  induction n with
  | zero => rfl
  | succ k ih =>
    have h := natOfDigits_foldl_shift (List.replicate k '0') 0
    unfold natOfDigits at *
    simp [List.replicate_succ, List.foldl_cons]
    simpa using ih

/-- C9: on an amount of the form `W` or `W.F` with `W` and `F` digit
strings, `toBaseUnits` returns exactly `W·10^d` plus the value of the
first `d` digits of `F` right-padded with zeros (`d` the configured
decimals), by pure string manipulation: excess fractional digits are
truncated, never rounded. -/
theorem toBaseUnits_exact (d : Nat) (W F : List Char)
    (hW : ∀ c ∈ W, c.isDigit = true) (hF : ∀ c ∈ F, c.isDigit = true) :
    toBaseUnits d (String.mk (W ++ '.' :: F))
        = some (natOfDigits W * 10 ^ d
            + natOfDigits ((F ++ List.replicate (d - F.length) '0').take d)) ∧
      toBaseUnits d (String.mk W) = some (natOfDigits W * 10 ^ d) := by
  have hdot : ('.' : Char).isDigit = false := by decide
  have hW' : ∀ c ∈ W, c ≠ '.' := by
    intro c hc he
    rw [he] at hc
    have := hW _ hc
    rw [hdot] at this
    exact Bool.noConfusion this
  have hF' : ∀ c ∈ F, c ≠ '.' := by
    intro c hc he
    rw [he] at hc
    have := hF _ hc
    rw [hdot] at this
    exact Bool.noConfusion this
  have hzero : ('0' : Char).isDigit = true := by decide
  constructor
  · unfold toBaseUnits
    rw [show (String.mk (W ++ '.' :: F)).data = W ++ '.' :: F from rfl,
      splitOnDot_append W F hW' hF']
    simp only [List.headD_cons, List.drop_succ_cons, List.drop_zero]
    have hall : ((W ++ (F ++ List.replicate (d - F.length) '0').take d).all
        Char.isDigit) = true := by
      rw [List.all_eq_true]
      intro c hc
      rcases List.mem_append.mp hc with h | h
      · exact hW _ h
      · rcases List.mem_append.mp (List.mem_of_mem_take h) with h2 | h2
        · exact hF _ h2
        · rw [List.eq_of_mem_replicate h2]
          exact hzero
    rw [jsBigIntOfDigits, if_pos hall, natOfDigits_append]
    have hlen : ((F ++ List.replicate (d - F.length) '0').take d).length = d := by
      rw [List.length_take, List.length_append, List.length_replicate]
      omega
    rw [hlen]
  · unfold toBaseUnits
    rw [show (String.mk W).data = W from rfl, splitOnDot_no_dot W hW']
    simp only [List.headD_cons, List.drop_succ_cons, List.drop_nil,
      List.headD_nil, List.drop_one, List.tail_cons]
    have hall : ((W ++ (([] : List Char)
        ++ List.replicate (d - List.length ([] : List Char)) '0').take d).all
        Char.isDigit) = true := by
      rw [List.all_eq_true]
      intro c hc
      rcases List.mem_append.mp hc with h | h
      · exact hW _ h
      · have h2 : c ∈ List.replicate (d - List.length ([] : List Char)) '0' := by
          have := List.mem_of_mem_take h
          simpa using this
        rw [List.eq_of_mem_replicate h2]
        exact hzero
    rw [jsBigIntOfDigits, if_pos hall, natOfDigits_append]
    have hlen : ((([] : List Char)
        ++ List.replicate (d - List.length ([] : List Char)) '0').take d).length
        = d := by
      simp [List.length_take, List.length_replicate]
    rw [hlen]
    have hval : natOfDigits ((([] : List Char)
        ++ List.replicate (d - List.length ([] : List Char)) '0').take d) = 0 := by
      simp only [List.nil_append, List.length_nil, Nat.sub_zero]
      rw [List.take_replicate]
      exact natOfDigits_replicate_zero _
    rw [hval]
    simp

/-- Witness for C9: converting "1.5" with six decimals yields 1500000. -/
theorem toBaseUnits_exact_witness :
    toBaseUnits 6 (String.mk (['1'] ++ '.' :: ['5'])) = some 1500000 := by
  have h := (toBaseUnits_exact 6 ['1'] ['5'] (by decide) (by decide)).1
  rw [h]
  decide

/-- C10: with the My Orders view selected and an identity connected, the
displayed list contains exactly the orders returned by `list_orders` whose
`intent.user` equals the connected principal, in strictly decreasing
numeric order id; fetching mutates nothing — every displayed order is an
unchanged element of the engine's answer. -/
theorem fetchOrders_myOrders_spec (p : Bytes) (allOrders : List OrderRec)
    (hid : (allOrders.map OrderRec.id).Nodup) :
    List.Perm (fetchOrders false (some p) allOrders)
        (allOrders.filter (fun o => o.intent.user == p)) ∧
      (fetchOrders false (some p) allOrders).Pairwise
        (fun a b => b.id < a.id) ∧
      (∀ o ∈ fetchOrders false (some p) allOrders, o ∈ allOrders) := by
  have hunfold : fetchOrders false (some p) allOrders
      = (allOrders.filter (fun (o : OrderRec) => o.intent.user == p)).mergeSort
          (fun a b => decide (b.id ≤ a.id)) := rfl
  have hperm :
      List.Perm (fetchOrders false (some p) allOrders)
        (allOrders.filter (fun o => o.intent.user == p)) := by
    rw [hunfold]
    exact List.mergeSort_perm (allOrders.filter (fun o => o.intent.user == p)) _
  refine ⟨hperm, ?_, ?_⟩
  · have hsorted :=
      @List.sorted_mergeSort OrderRec
        (fun a b : OrderRec => decide (b.id ≤ a.id))
        (by intro a b c h1 h2
            simp only [decide_eq_true_eq] at *
            omega)
        (by intro a b
            simp only [Bool.or_eq_true, decide_eq_true_eq]
            omega)
        (allOrders.filter (fun o => o.intent.user == p))
    have hfilter_nodup :
        ((allOrders.filter (fun o => o.intent.user == p)).map OrderRec.id).Nodup :=
      List.Nodup.sublist
        (List.Sublist.map OrderRec.id (List.filter_sublist allOrders)) hid
    have hsort_nodup :
        ((fetchOrders false (some p) allOrders).map OrderRec.id).Nodup :=
      (List.Perm.nodup_iff (List.Perm.map OrderRec.id hperm)).mpr hfilter_nodup
    have hne := List.pairwise_map.mp hsort_nodup
    have hle : (fetchOrders false (some p) allOrders).Pairwise
        (fun a b => decide (b.id ≤ a.id) = true) := by
      rw [hunfold]
      exact hsorted
    have hand := List.Pairwise.and hle hne
    exact hand.imp (by
      intro a b hab
      obtain ⟨h1, h2⟩ := hab
      simp only [decide_eq_true_eq] at h1
      omega)
  · intro o ho
    exact List.mem_of_mem_filter (hperm.mem_iff.mp ho)

/-- Witness for C10 on a concrete two-order log. -/
theorem fetchOrders_myOrders_spec_witness :
    (demoOrders.map OrderRec.id).Nodup ∧
      (fetchOrders false (some [4, 7]) demoOrders).Pairwise
        (fun a b => b.id < a.id) :=
  ⟨by decide, (fetchOrders_myOrders_spec [4, 7] demoOrders (by decide)).2.1⟩

end BalanceChecker
